import Mathlib

/-!
Shallow embedding of the `prefect_deployments.py` CI script and
`prefect/flows/deployments/templates.py` from the nesso-starter-project
repository, together with theorems settling the specification claims.

External effects are made explicit:
* the filesystem check `os.path.exists` becomes a function `fsExists : String → Bool`;
* each subprocess invocation is recorded as an `Act` in a trace, and its
  exit code is supplied by an environment function (`runExit` for
  `python3 <file>`, `deleteExit` for the platform CLI delete);
* a raised `CalledProcessError` becomes an `Except.error exitCode` /
  an `Option Nat` error component of the run state (the Python exception
  aborts the module-level loop, modelled by a halt flag that freezes the fold).
-/

/-- A remote Prefect deployment as read by the script: only `id`, `name`
and `tags` are ever inspected (`deployment.id`, `deployment.name`,
`deployment.tags` in `visit_deployment`). -/
structure Deployment where
  id : String
  name : String
  tags : List String
deriving DecidableEq, Repr

/-- One recorded subprocess invocation performed by the script:
`create f` stands for `subprocess.run(["python3", f], check=True)` in
`create_deployment`, and `delete i n` for
`subprocess.run(["prefect", "deployment", "delete", "--id", i], ...)` in
`delete_deployment` (the name `n` is only used for logging). -/
inductive Act where
  | create (fileName : String)
  | delete (deploymentId deploymentName : String)
deriving DecidableEq, Repr

/-- True when the action is a create invocation. -/
def Act.isCreate : Act → Bool
  | .create _ => true
  | .delete _ _ => false

/-- True when the action is a delete invocation. -/
def Act.isDelete : Act → Bool
  | .create _ => false
  | .delete _ _ => true

/-- The external environment of one run: filesystem membership of the
deployment-scripts directory and the exit codes the two kinds of
subprocesses would return. -/
structure Env where
  fsExists : String → Bool
  runExit : String → Nat
  deleteExit : String → Nat

/-- Embedding of Python `subprocess.run`: with `check = true` a non-zero
exit code raises `CalledProcessError` (here `Except.error`), otherwise the
completed process is returned regardless of its exit code. -/
def subprocessRun (check : Bool) (exitCode : Nat) : Except Nat Nat :=
  if check then
    if exitCode = 0 then Except.ok exitCode else Except.error exitCode
  else Except.ok exitCode

/-- Embedding of `create_deployment`: runs `python3 file_name` with
`check=True`; on `CalledProcessError` the failure is logged and the
exception re-raised, i.e. the error propagates to the caller.
(Logging is not modelled.) -/
def create_deployment (runExit : String → Nat) (file_name : String) : Except Nat Unit :=
  match subprocessRun true (runExit file_name) with
  | Except.ok _ => Except.ok ()
  | Except.error e => Except.error e

/-- Embedding of `delete_deployment`: shells out to
`prefect deployment delete --id <id>` with `capture_output=True` and no
`check`, so `subprocessRun false` never raises; the `except
CalledProcessError` branch (the `Except.error` arm here) re-raises but is
unreachable. -/
def delete_deployment (deleteExit : String → Nat) (deployment_id deployment_name : String) :
    Except Nat Unit :=
  match subprocessRun false (deleteExit deployment_id) with
  | Except.ok _ => Except.ok ()
  | Except.error e => Except.error e

/-- Decides whether `pat` occurs at the start of the character list `s`
(embedding of Python `str.startswith`). -/
def listStarts : List Char → List Char → Bool
  | [], _ => true
  | _ :: _, [] => false
  | a :: as, b :: bs => a == b && listStarts as bs

/-- Embedding of Python `path.startswith(pat)`. -/
def strStartsWith (s pat : String) : Bool := listStarts pat.data s.data

/-- Characters accumulated since the last `/`, i.e. Python
`os.path.basename` on a path made of `/`-separated components. -/
def basenameAux : List Char → List Char → List Char
  | [], acc => acc
  | c :: rest, acc => if c = '/' then basenameAux rest [] else basenameAux rest (acc ++ [c])

/-- Embedding of `os.path.basename(path)`: the suffix after the last `/`. -/
def basename (path : String) : String := String.mk (basenameAux path.data [])

/-- The watched directory literal from `visit_deployment`. -/
def watchedDir : String := "prefect/flows/deployments/"

/-- The operation codes that trigger the create branch, the literal list
`["A", "M", "R", "C"]` of `visit_deployment`. -/
def createOps : List String := ["A", "M", "R", "C"]

/-- Embedding of the `for deployment in prefect_deployments` loop of the
delete branch of `visit_deployment`: every deployment whose `tags` contain
`file_name` gets one `delete_deployment` call; the invocations performed
are returned together with the error (`none`, since deletion never
raises). -/
def deleteMatching (env : Env) (file_name : String) :
    List Deployment → List Act × Option Nat
  | [] => ([], none)
  | d :: rest =>
    if d.tags.contains file_name then
      match delete_deployment env.deleteExit d.id d.name with
      | Except.ok _ =>
        let r := deleteMatching env file_name rest
        (Act.delete d.id d.name :: r.1, r.2)
      | Except.error e => ([Act.delete d.id d.name], some e)
    else deleteMatching env file_name rest

/-- Embedding of `visit_deployment`: dispatch on one `(path, operation)`
pair. It returns the subprocess invocations performed and, when a
`create_deployment` call raised, the propagated exit code. The `os.chdir`
calls only select the directory probed by `env.fsExists` and are not
otherwise modelled. -/
def visit_deployment (env : Env) (path operation : String)
    (prefect_deployments : List Deployment) : List Act × Option Nat :=
  let file_name := basename path
  if strStartsWith path watchedDir && createOps.contains operation then
    if env.fsExists file_name then
      match create_deployment env.runExit file_name with
      | Except.ok _ => ([Act.create file_name], none)
      | Except.error e => ([Act.create file_name], some e)
    else ([], none)
  else if strStartsWith path watchedDir && operation == "D" then
    deleteMatching env file_name prefect_deployments
  else ([], none)

/-- State of the module-level reconciliation loop: the `visited` list, the
`(path, operation)` pairs actually passed to `visit_deployment`
(`dispatched`), the subprocess invocations so far (`trace`), and the
pending exception (`error`), which freezes the rest of the run. -/
structure RunState where
  visited : List String
  dispatched : List (String × String)
  trace : List Act
  error : Option Nat
deriving DecidableEq, Repr

/-- The initial state of a run: nothing visited, nothing dispatched. -/
def initState : RunState := ⟨[], [], [], none⟩

/-- One iteration of the inner `for path, operation in
modified_files.items()` loop: a pending exception skips everything
(the Python exception has already aborted the run); a path already in
`visited` is skipped; otherwise `visit_deployment` runs and, when it
returns normally, `visited.append(path)` is performed. -/
def stepPair (env : Env) (deps : List Deployment) (s : RunState)
    (p : String × String) : RunState :=
  if s.error.isSome then s
  else if s.visited.contains p.1 then s
  else
    let r := visit_deployment env p.1 p.2 deps
    match r.2 with
    | some e => ⟨s.visited, s.dispatched ++ [p], s.trace ++ r.1, some e⟩
    | none => ⟨s.visited ++ [p.1], s.dispatched ++ [p], s.trace ++ r.1, none⟩

/-- Embedding of the module-level loop: `commits` is the list produced by
`get_commits` (newest first); the loop iterates `reversed(commits)` and,
within each commit, the `(path, operation)` pairs of
`get_modified_files(commit).items()` in order, so the whole run is a fold
over the flattened reversed list. -/
def runReconciler (env : Env) (deps : List Deployment)
    (commits : List (List (String × String))) : RunState :=
  List.foldl (stepPair env deps) initState commits.reverse.flatten

/-- Splits a character stream at whitespace runs, discarding empty pieces:
the behaviour of Python `str.split()` with no separator (the preceding
`.strip()` in the source is then redundant). `acc` holds the current token
reversed. -/
def splitWsAux : List Char → List Char → List String
  | [], acc => if acc = [] then [] else [String.mk acc.reverse]
  | c :: cs, acc =>
    if c.isWhitespace then
      if acc = [] then splitWsAux cs []
      else String.mk acc.reverse :: splitWsAux cs []
    else splitWsAux cs (c :: acc)

/-- Embedding of `stdout.strip().split()` in `get_modified_files`. -/
def splitWhitespace (s : String) : List String := splitWsAux s.data []

/-- Embedding of the comprehension
`{changes[i + 1]: changes[i] for i in range(0, len(changes), 2)}`:
adjacent tokens are paired as `(path, operation) = (changes[i+1], changes[i])`;
a trailing unpaired token makes `changes[i + 1]` raise `IndexError`,
modelled as `none`. -/
def pairTokens : List String → Option (List (String × String))
  | [] => some []
  | [_] => none
  | a :: b :: rest => (pairTokens rest).map (fun l => (b, a) :: l)

/-- Embedding of `get_modified_files` as a function of the diff command's
standard output: tokenize, then pair adjacent tokens into
`path ↦ operation` entries (an association list standing for the Python
dict, whose keys are the distinct changed paths of one commit). -/
def get_modified_files (stdout : String) : Option (List (String × String)) :=
  pairTokens (splitWhitespace stdout)

/-- First value stored under key `k`, i.e. Python dict lookup on an
association list with distinct keys. -/
def lookupKey (k : String) : List (String × String) → Option String
  | [] => none
  | p :: rest => if p.1 = k then some p.2 else lookupKey k rest

/-- Embedding of the Python dict merge `\x7b**d1, **d2\x7d` for dicts with
distinct keys: every key of `d1` keeps its position but takes `d2`'s value
when `d2` has the key, and the keys of `d2` absent from `d1` follow. -/
def dictMerge (d1 d2 : List (String × String)) : List (String × String) :=
  d1.map (fun p => match lookupKey p.1 d2 with | some w => (p.1, w) | none => p) ++
    d2.filter (fun p => (lookupKey p.1 d1).isNone)

/-- Renders an optional environment-variable value the way a Python
f-string renders `os.getenv`'s result: the string itself, or `"None"`. -/
def optStr : Option String → String
  | some s => s
  | none => "None"

/-- Embedding of the module-level constant `EXTRACT_DEFAULT_PARAMS =
\x7b"to_path": f"s3://\x7bbucket\x7d/nesso/\x7bschema_name\x7d"\x7d`, where `bucket` and
`schema_name` come from `os.getenv`. -/
def EXTRACT_DEFAULT_PARAMS (bucket schema_name : Option String) : List (String × String) :=
  [("to_path", "s3://" ++ optStr bucket ++ "/nesso/" ++ optStr schema_name)]

/-- The parameter dictionary `extract_and_load` passes to the deployment:
`params = params or \x7b\x7d; params_final = \x7b**EXTRACT_DEFAULT_PARAMS, **params\x7d`.
`params = none` embeds Python `params=None`. -/
def params_final (bucket schema_name : Option String)
    (params : Option (List (String × String))) : List (String × String) :=
  dictMerge (EXTRACT_DEFAULT_PARAMS bucket schema_name) (params.getD [])

theorem delete_deployment_ok (deleteExit : String → Nat) (i n : String) :
    delete_deployment deleteExit i n = Except.ok () := rfl

theorem deleteMatching_eq (env : Env) (f : String) (deps : List Deployment) :
    deleteMatching env f deps =
      ((deps.filter fun d => d.tags.contains f).map fun d => Act.delete d.id d.name,
        none) := by
  induction deps with
  | nil => rfl
  | cons d rest ih =>
    by_cases h : f ∈ d.tags
    · simp [deleteMatching, h, delete_deployment, subprocessRun, ih, List.filter_cons]
    · simp [deleteMatching, h, ih, List.filter_cons]

theorem stepPair_frozen (env : Env) (deps : List Deployment) (s : RunState)
    (p : String × String) (h : s.error.isSome = true) : stepPair env deps s p = s := by
  simp [stepPair, h]

theorem foldl_stepPair_frozen (env : Env) (deps : List Deployment)
    (l : List (String × String)) (s : RunState) (h : s.error.isSome = true) :
    List.foldl (stepPair env deps) s l = s := by
  induction l with
  | nil => rfl
  | cons p rest ih => rw [List.foldl_cons, stepPair_frozen env deps s p h, ih]

theorem stepPair_skip (env : Env) (deps : List Deployment) (s : RunState)
    (p : String × String) (h : s.visited.contains p.1 = true) :
    stepPair env deps s p = s := by
  have hm : p.1 ∈ s.visited := by simpa using h
  by_cases he : s.error.isSome
  · exact stepPair_frozen env deps s p he
  · simp [stepPair, he, hm]

/-- Invariant of the reconciliation loop: the dispatched paths are
pairwise distinct and, while no exception is pending, every dispatched
path has been recorded in `visited`. -/
def GoodState (s : RunState) : Prop :=
  (s.dispatched.map Prod.fst).Nodup ∧
  (s.error = none → ∀ q ∈ s.dispatched.map Prod.fst, q ∈ s.visited)

theorem stepPair_good (env : Env) (deps : List Deployment) {s : RunState}
    (p : String × String) (h : GoodState s) : GoodState (stepPair env deps s p) := by
  by_cases he : s.error.isSome
  · rw [stepPair_frozen env deps s p he]; exact h
  · by_cases hvis : s.visited.contains p.1
    · rw [stepPair_skip env deps s p hvis]; exact h
    · have hvm : p.1 ∉ s.visited := by simpa using hvis
      have hnone : s.error = none := Option.not_isSome_iff_eq_none.mp he
      have hnotin : p.1 ∉ s.dispatched.map Prod.fst :=
        fun hin => hvm (h.2 hnone p.1 hin)
      have hnd : ((s.dispatched ++ [p]).map Prod.fst).Nodup := by
        rw [List.map_append, List.nodup_append]
        exact ⟨h.1, List.nodup_singleton _, by simpa using hnotin⟩
      have hvb : s.visited.contains p.1 = false := by simpa using hvis
      cases hr : (visit_deployment env p.1 p.2 deps).2 with
      | some e =>
        have : stepPair env deps s p =
            ⟨s.visited, s.dispatched ++ [p], s.trace ++ (visit_deployment env p.1 p.2 deps).1,
              some e⟩ := by
          simp [stepPair, he, hvm, hr]
        rw [this]
        exact ⟨hnd, fun hcontra => by simp at hcontra⟩
      | none =>
        have : stepPair env deps s p =
            ⟨s.visited ++ [p.1], s.dispatched ++ [p],
              s.trace ++ (visit_deployment env p.1 p.2 deps).1, none⟩ := by
          simp [stepPair, he, hvm, hr]
        rw [this]
        refine ⟨hnd, fun _ q hq => ?_⟩
        rw [List.map_append] at hq
        rcases List.mem_append.mp hq with hq1 | hq2
        · exact List.mem_append.mpr (Or.inl (h.2 hnone q hq1))
        · exact List.mem_append.mpr (Or.inr (by simpa using hq2))

theorem foldl_stepPair_good (env : Env) (deps : List Deployment)
    (l : List (String × String)) : ∀ {s : RunState}, GoodState s →
    GoodState (List.foldl (stepPair env deps) s l) := by
  induction l with
  | nil => exact fun h => h
  | cons p rest ih => exact fun h => ih (stepPair_good env deps p h)

theorem initState_good : GoodState initState := by
  constructor <;> simp [initState, GoodState]

theorem foldl_dispatched_mono (env : Env) (deps : List Deployment) :
    ∀ (l : List (String × String)) (s : RunState),
      ∃ t, (List.foldl (stepPair env deps) s l).dispatched = s.dispatched ++ t := by
  intro l
  induction l with
  | nil => exact fun s => ⟨[], by simp⟩
  | cons p rest ih =>
    intro s
    obtain ⟨t, ht⟩ := ih (stepPair env deps s p)
    have hstep : ∃ t0, (stepPair env deps s p).dispatched = s.dispatched ++ t0 := by
      by_cases he : s.error.isSome
      · exact ⟨[], by simp [stepPair_frozen env deps s p he]⟩
      · by_cases hvis : s.visited.contains p.1
        · exact ⟨[], by simp [stepPair_skip env deps s p hvis]⟩
        · have hvm : p.1 ∉ s.visited := by simpa using hvis
          cases hr : (visit_deployment env p.1 p.2 deps).2 with
          | none => exact ⟨[p], by simp [stepPair, he, hvm, hr]⟩
          | some e => exact ⟨[p], by simp [stepPair, he, hvm, hr]⟩
    obtain ⟨t0, ht0⟩ := hstep
    refine ⟨t0 ++ t, ?_⟩
    rw [List.foldl_cons, ht, ht0, List.append_assoc]

theorem pairTokens_even_spec : ∀ (toks : List String), toks.length % 2 = 0 →
    ∃ pairs, pairTokens toks = some pairs ∧ 2 * pairs.length = toks.length ∧
      ∀ i p o, pairs[i]? = some (p, o) →
        toks[2 * i]? = some o ∧ toks[2 * i + 1]? = some p
  | [], _ => ⟨[], rfl, rfl, fun i p o h => by simp at h⟩
  | [a], h => by simp at h
  | a :: b :: rest, h => by
    have hr : rest.length % 2 = 0 := by
      have hlen2 : (a :: b :: rest).length = rest.length + 2 := by simp
      omega
    obtain ⟨pairs, hp, hlen, hidx⟩ := pairTokens_even_spec rest hr
    refine ⟨(b, a) :: pairs, ?_, ?_, ?_⟩
    · simp [pairTokens, hp]
    · simp only [List.length_cons]
      omega
    · intro i p o hio
      cases i with
      | zero =>
        simp only [List.getElem?_cons_zero, Option.some.injEq, Prod.mk.injEq] at hio
        simp [hio.1, hio.2]
      | succ j =>
        have hj := hidx j p o (by simpa using hio)
        have h2 : 2 * (j + 1) = 2 * j + 1 + 1 := by omega
        rw [h2]
        simpa using hj

theorem pairTokens_odd : ∀ (toks : List String), toks.length % 2 = 1 →
    pairTokens toks = none
  | [], h => by simp at h
  | [_], _ => rfl
  | a :: b :: rest, h => by
    have hr : rest.length % 2 = 1 := by
      have hlen2 : (a :: b :: rest).length = rest.length + 2 := by simp
      omega
    simp [pairTokens, pairTokens_odd rest hr]

theorem lookupKey_append (k : String) (l1 l2 : List (String × String)) :
    lookupKey k (l1 ++ l2) =
      match lookupKey k l1 with
      | some v => some v
      | none => lookupKey k l2 := by
  induction l1 with
  | nil => simp [lookupKey]
  | cons q rest ih =>
    by_cases h : q.1 = k
    · simp [lookupKey, h]
    · simp [lookupKey, h, ih]

theorem lookupKey_map_override (d1 d2 : List (String × String)) (k : String) :
    lookupKey k
        (d1.map fun p => match lookupKey p.1 d2 with | some w => (p.1, w) | none => p) =
      match lookupKey k d1 with
      | some v =>
        match lookupKey k d2 with
        | some w => some w
        | none => some v
      | none => none := by
  induction d1 with
  | nil => simp [lookupKey]
  | cons q rest ih =>
    by_cases h : q.1 = k
    · subst h
      cases hq : lookupKey q.1 d2 <;> simp [lookupKey, hq]
    · cases hq : lookupKey q.1 d2 <;> simp [lookupKey, h, hq, ih]

theorem lookupKey_filter_of_none (d1 d2 : List (String × String)) (k : String)
    (h : lookupKey k d1 = none) :
    lookupKey k (d2.filter fun p => (lookupKey p.1 d1).isNone) = lookupKey k d2 := by
  induction d2 with
  | nil => simp
  | cons q rest ih =>
    by_cases hk : q.1 = k
    · subst hk
      have hq : (lookupKey q.1 d1).isNone = true := by rw [h]; rfl
      simp [List.filter_cons, hq, lookupKey]
    · cases hn : (lookupKey q.1 d1).isNone <;>
        simp [List.filter_cons, hn, lookupKey, hk, ih]

theorem lookupKey_dictMerge (d1 d2 : List (String × String)) (k : String) :
    lookupKey k (dictMerge d1 d2) =
      match lookupKey k d2 with
      | some w => some w
      | none => lookupKey k d1 := by
  rw [dictMerge, lookupKey_append, lookupKey_map_override]
  cases h1 : lookupKey k d1 with
  | some v => cases h2 : lookupKey k d2 <;> simp
  | none =>
    rw [lookupKey_filter_of_none d1 d2 k h1]
    cases h2 : lookupKey k d2 <;> simp

/-- A concrete environment where every deployment-script file exists and
every subprocess exits 0. -/
def envAll : Env := ⟨fun _ => true, fun _ => 0, fun _ => 0⟩

/-- A concrete environment where no deployment-script file exists. -/
def envNone : Env := ⟨fun _ => false, fun _ => 0, fun _ => 0⟩

/-- A concrete environment where every `python3` run exits 2. -/
def envFail : Env := ⟨fun _ => true, fun _ => 2, fun _ => 0⟩

/-- The watched path used in the spec's example. -/
def examplePath : String := "prefect/flows/deployments/example.py"

/-- C1, counterexample: the claim says a watched path with operation code
`A` gets the create action invoked exactly once; when no file with the
path's base name exists in the scripts directory, the dispatcher performs
no create at all, so the count is not 1. -/
theorem c1_counterexample :
    ¬ (((runReconciler envNone [] [[(examplePath, "A")]]).trace.filter
        Act.isCreate).length = 1) := by decide

/-- C1 (amended): for a dispatched path under the watched directory, an
operation code in `A, M, R, C` invokes the create action exactly once
provided a file with the path's base name exists in the deployment-scripts
directory, and not at all otherwise; operation code `D` invokes the delete
action once for every remote deployment whose tag list contains the path's
base file name, so k deployments sharing that tag yield k delete calls. -/
theorem c1_dispatch_actions (env : Env) (path op : String) (deps : List Deployment)
    (hw : strStartsWith path watchedDir = true) :
    (createOps.contains op = true → env.fsExists (basename path) = true →
      (visit_deployment env path op deps).1 = [Act.create (basename path)]) ∧
    (createOps.contains op = true → env.fsExists (basename path) = false →
      (visit_deployment env path op deps).1 = []) ∧
    (op = "D" →
      (visit_deployment env path op deps).1 =
        (deps.filter fun d => d.tags.contains (basename path)).map
          fun d => Act.delete d.id d.name) ∧
    (op = "D" →
      (visit_deployment env path op deps).1.length =
        (deps.filter fun d => d.tags.contains (basename path)).length) := by
  have hD : ∀ (h : op = "D"), (visit_deployment env path op deps).1 =
      (deps.filter fun d => d.tags.contains (basename path)).map
        fun d => Act.delete d.id d.name := by
    intro h
    subst h
    have hnc : "D" ∉ createOps := by decide
    simp [visit_deployment, hw, hnc, deleteMatching_eq]
  refine ⟨?_, ?_, hD, fun h => by rw [hD h, List.length_map]⟩
  · intro hc hfs
    have hcm : op ∈ createOps := by simpa using hc
    cases hcr : create_deployment env.runExit (basename path) <;>
      simp [visit_deployment, hw, hcm, hfs, hcr]
  · intro hc hfs
    have hcm : op ∈ createOps := by simpa using hc
    simp [visit_deployment, hw, hcm, hfs]

/-- C1, witness: concrete instances of the amended claim, one for the
create branch and one delete fan-out with two matching deployments. -/
theorem c1_witness :
    (visit_deployment envAll examplePath "A" []).1 = [Act.create "example.py"] ∧
    (visit_deployment envAll examplePath "D"
        [⟨"i1", "n1", ["example.py"]⟩, ⟨"i2", "n2", ["example.py"]⟩]).1 =
      [Act.delete "i1" "n1", Act.delete "i2" "n2"] := by
  have h1 := (c1_dispatch_actions envAll examplePath "A" [] (by decide)).1
    (by decide) (by decide)
  have h2 := (c1_dispatch_actions envAll examplePath "D"
    [⟨"i1", "n1", ["example.py"]⟩, ⟨"i2", "n2", ["example.py"]⟩] (by decide)).2.2.1 rfl
  constructor
  · rw [h1]; decide
  · rw [h2]; decide

/-- C2: the reconciler dispatches on each path at most once per run (the
dispatched paths of the final state are pairwise distinct), and a pair
whose path is already in `visited` is skipped, leaving the state — hence
the trace of create/delete invocations — unchanged. -/
theorem c2_dispatch_at_most_once (env : Env) (deps : List Deployment)
    (commits : List (List (String × String))) :
    ((runReconciler env deps commits).dispatched.map Prod.fst).Nodup ∧
    ∀ (s : RunState) (p : String × String), s.visited.contains p.1 = true →
      stepPair env deps s p = s := by
  exact ⟨(foldl_stepPair_good env deps _ initState_good).1,
    fun s p h => stepPair_skip env deps s p h⟩

/-- C2, witness: a run over two commits repeating the same path, and a
skipped step on a state that has already visited the path. -/
theorem c2_witness :
    ((runReconciler envAll [] [[(examplePath, "M")], [(examplePath, "A")]]).dispatched.map
      Prod.fst).Nodup ∧
    stepPair envAll [] ⟨[examplePath], [(examplePath, "A")], [Act.create "example.py"], none⟩
        (examplePath, "M") =
      ⟨[examplePath], [(examplePath, "A")], [Act.create "example.py"], none⟩ :=
  ⟨(c2_dispatch_at_most_once envAll [] [[(examplePath, "M")], [(examplePath, "A")]]).1,
    (c2_dispatch_at_most_once envAll [] []).2
      ⟨[examplePath], [(examplePath, "A")], [Act.create "example.py"], none⟩
      (examplePath, "M") (by decide)⟩

/-- C3, counterexample: commits oldest→newest touch the example path with
codes A then D, and one remote deployment is tagged `example.py`; the
claim predicts one delete invocation, but the D occurrence is skipped
because the path was already visited by the A commit, so no delete at all
is invoked. -/
theorem c3_counterexample :
    ¬ (((runReconciler envAll [⟨"i1", "n1", ["example.py"]⟩]
        [[(examplePath, "D")], [(examplePath, "A")]]).trace.filter
          Act.isDelete).length = 1) := by decide

/-- C3 (amended): for a run whose commits, oldest to newest, touch the
watched example path first with `A` and then with `D`, the create action
is invoked once for that path and the later `D` occurrence is skipped by
the visited check, so no delete action is invoked at all. -/
theorem c3_create_then_later_delete_skipped (env : Env) (deps : List Deployment)
    (h1 : env.fsExists "example.py" = true) (h2 : env.runExit "example.py" = 0) :
    runReconciler env deps [[(examplePath, "D")], [(examplePath, "A")]] =
      ⟨[examplePath], [(examplePath, "A")], [Act.create "example.py"], none⟩ := by
  have hb : basename examplePath = "example.py" := by decide
  have hw : strStartsWith examplePath watchedDir = true := by decide
  have hc : "A" ∈ createOps := by decide
  have hflat : ([[(examplePath, "D")], [(examplePath, "A")]] :
      List (List (String × String))).reverse.flatten =
      [(examplePath, "A"), (examplePath, "D")] := by decide
  have hcr : create_deployment env.runExit "example.py" = Except.ok () := by
    simp [create_deployment, subprocessRun, h2]
  have hv : visit_deployment env examplePath "A" deps =
      ([Act.create "example.py"], none) := by
    simp [visit_deployment, hw, hc, hb, h1, hcr]
  have e1 : stepPair env deps initState (examplePath, "A") =
      ⟨[examplePath], [(examplePath, "A")], [Act.create "example.py"], none⟩ := by
    simp [stepPair, initState, hv]
  unfold runReconciler
  rw [hflat, List.foldl_cons, e1, List.foldl_cons,
    stepPair_skip env deps _ _ (by decide), List.foldl_nil]

/-- C3, witness: the amended run at a concrete environment and one
matching remote deployment. -/
theorem c3_witness :
    runReconciler envAll [⟨"i1", "n1", ["example.py"]⟩]
        [[(examplePath, "D")], [(examplePath, "A")]] =
      ⟨[examplePath], [(examplePath, "A")], [Act.create "example.py"], none⟩ :=
  c3_create_then_later_delete_skipped envAll [⟨"i1", "n1", ["example.py"]⟩]
    (by decide) (by decide)

/-- C4: a non-zero exit of the create subprocess makes `create_deployment`
propagate the error (the `CalledProcessError` is re-raised); at the run
level the failing dispatch records the create invocation and the error,
and a pending error freezes the fold, so no further paths are processed. -/
theorem c4_create_failure_propagates :
    (∀ (runExit : String → Nat) (f : String), runExit f ≠ 0 →
      create_deployment runExit f = Except.error (runExit f)) ∧
    (∀ (env : Env) (deps : List Deployment) (s : RunState) (path : String),
      s.error = none → s.visited.contains path = false →
      strStartsWith path watchedDir = true →
      env.fsExists (basename path) = true → env.runExit (basename path) ≠ 0 →
      (stepPair env deps s (path, "A")).error = some (env.runExit (basename path)) ∧
      (stepPair env deps s (path, "A")).trace = s.trace ++ [Act.create (basename path)]) ∧
    (∀ (env : Env) (deps : List Deployment) (s : RunState)
      (l : List (String × String)), s.error.isSome = true →
      List.foldl (stepPair env deps) s l = s) := by
  refine ⟨?_, ?_, fun env deps s l h => foldl_stepPair_frozen env deps l s h⟩
  · intro runExit f h
    simp [create_deployment, subprocessRun, h]
  · intro env deps s path herr hvis hw hfs hnz
    have hc : "A" ∈ createOps := by decide
    have hcr : create_deployment env.runExit (basename path) =
        Except.error (env.runExit (basename path)) := by
      simp [create_deployment, subprocessRun, hnz]
    have hv : visit_deployment env path "A" deps =
        ([Act.create (basename path)], some (env.runExit (basename path))) := by
      simp [visit_deployment, hw, hc, hfs, hcr]
    have he : s.error.isSome = false := by simp [herr]
    have hvm : path ∉ s.visited := by simpa using hvis
    constructor <;> simp [stepPair, he, hvm, hv]

/-- C4, witness: a create subprocess exiting 2 yields the propagated
error, the failing dispatch records it, and a frozen state absorbs the
rest of the run. -/
theorem c4_witness :
    create_deployment (fun _ => 2) "example.py" = Except.error 2 ∧
    (stepPair envFail [] initState (examplePath, "A")).error = some 2 ∧
    List.foldl (stepPair envFail []) ⟨[], [], [Act.create "example.py"], some 2⟩
        [(examplePath, "A")] =
      ⟨[], [], [Act.create "example.py"], some 2⟩ := by
  refine ⟨c4_create_failure_propagates.1 (fun _ => 2) "example.py" (by decide), ?_, ?_⟩
  · have h := (c4_create_failure_propagates.2.1 envFail [] initState examplePath
      rfl (by decide) (by decide) (by decide) (by decide)).1
    rw [h]; decide
  · exact c4_create_failure_propagates.2.2 envFail []
      ⟨[], [], [Act.create "example.py"], some 2⟩ [(examplePath, "A")] (by decide)

/-- C5: the delete action never raises: the CLI subprocess is run without
exit-status checking, so `subprocessRun false` never returns an error and
`delete_deployment` returns normally for every deployment id and every
exit code the CLI might produce; its exception-handling branch is
unreachable. -/
theorem c5_delete_never_raises :
    (∀ exitCode : Nat, subprocessRun false exitCode = Except.ok exitCode) ∧
    ∀ (deleteExit : String → Nat) (i n : String),
      delete_deployment deleteExit i n = Except.ok () :=
  ⟨fun _ => rfl, fun _ _ _ => rfl⟩

/-- C9: for a watched path with a create operation code whose base file
name does not exist in the deployment-scripts directory, the dispatcher
performs no subprocess invocation and raises nothing, and the path is
still appended to `visited`. -/
theorem c9_create_only_if_file_exists (env : Env) (path op : String)
    (deps : List Deployment) (s : RunState)
    (hw : strStartsWith path watchedDir = true)
    (hop : createOps.contains op = true)
    (hfs : env.fsExists (basename path) = false) :
    visit_deployment env path op deps = ([], none) ∧
    (s.error = none → s.visited.contains path = false →
      stepPair env deps s (path, op) =
        ⟨s.visited ++ [path], s.dispatched ++ [(path, op)], s.trace, none⟩) := by
  have hcm : op ∈ createOps := by simpa using hop
  have hv : visit_deployment env path op deps = ([], none) := by
    simp [visit_deployment, hw, hcm, hfs]
  refine ⟨hv, fun herr hvis => ?_⟩
  have he : s.error.isSome = false := by simp [herr]
  have hvm : path ∉ s.visited := by simpa using hvis
  simp [stepPair, he, hvm, hv]

/-- C9, witness: the example path with code `A` in an environment with an
empty scripts directory: no action, and the path is marked visited. -/
theorem c9_witness :
    visit_deployment envNone examplePath "A" [] = ([], none) ∧
    stepPair envNone [] initState (examplePath, "A") =
      ⟨[examplePath], [(examplePath, "A")], [], none⟩ := by
  have h := c9_create_only_if_file_exists envNone examplePath "A" [] initState
    (by decide) (by decide) (by decide)
  refine ⟨h.1, ?_⟩
  rw [h.2 rfl (by decide)]
  decide

/-- C6: when the diff output splits into an even number of
whitespace-separated tokens, `get_modified_files` returns the mapping that
pairs adjacent tokens, sending each token at an odd index (the path) to
the token immediately before it (the operation code). -/
theorem c6_token_pairing (out : String)
    (h : (splitWhitespace out).length % 2 = 0) :
    ∃ pairs, get_modified_files out = some pairs ∧
      2 * pairs.length = (splitWhitespace out).length ∧
      ∀ i p o, pairs[i]? = some (p, o) →
        (splitWhitespace out)[2 * i]? = some o ∧
        (splitWhitespace out)[2 * i + 1]? = some p := by
  unfold get_modified_files
  exact pairTokens_even_spec (splitWhitespace out) h

/-- C6, witness: a two-entry diff output (`A foo.py`, `M bar.py`). -/
theorem c6_witness :
    (splitWhitespace "A\tfoo.py\nM\tbar.py").length % 2 = 0 ∧
    ∃ pairs, get_modified_files "A\tfoo.py\nM\tbar.py" = some pairs ∧
      2 * pairs.length = (splitWhitespace "A\tfoo.py\nM\tbar.py").length ∧
      ∀ i p o, pairs[i]? = some (p, o) →
        (splitWhitespace "A\tfoo.py\nM\tbar.py")[2 * i]? = some o ∧
        (splitWhitespace "A\tfoo.py\nM\tbar.py")[2 * i + 1]? = some p :=
  ⟨by decide, c6_token_pairing "A\tfoo.py\nM\tbar.py" (by decide)⟩

/-- C7: the parameter dictionary `extract_and_load` passes on equals the
fixed defaults overridden by the caller-supplied params: a key present in
the caller's params takes the caller's value, and a key absent from them
keeps its value from `EXTRACT_DEFAULT_PARAMS`. -/
theorem c7_params_merge (bucket schema_name : Option String)
    (params : List (String × String)) (k : String) :
    (∀ v, lookupKey k params = some v →
      lookupKey k (params_final bucket schema_name (some params)) = some v) ∧
    (lookupKey k params = none →
      lookupKey k (params_final bucket schema_name (some params)) =
        lookupKey k (EXTRACT_DEFAULT_PARAMS bucket schema_name)) := by
  constructor
  · intro v hv
    show lookupKey k (dictMerge (EXTRACT_DEFAULT_PARAMS bucket schema_name) params) =
      some v
    rw [lookupKey_dictMerge, hv]
  · intro hn
    show lookupKey k (dictMerge (EXTRACT_DEFAULT_PARAMS bucket schema_name) params) = _
    rw [lookupKey_dictMerge, hn]

/-- C7, witness: `to_path` overridden by the caller in one call and kept
at its default in another. -/
theorem c7_witness :
    lookupKey "to_path" (params_final (some "b") (some "s")
        (some [("to_path", "x"), ("schema_name", "y")])) = some "x" ∧
    lookupKey "to_path" (params_final (some "b") (some "s")
        (some [("schema_name", "y")])) =
      lookupKey "to_path" (EXTRACT_DEFAULT_PARAMS (some "b") (some "s")) :=
  ⟨(c7_params_merge (some "b") (some "s")
      [("to_path", "x"), ("schema_name", "y")] "to_path").1 "x" (by decide),
    (c7_params_merge (some "b") (some "s") [("schema_name", "y")] "to_path").2
      (by decide)⟩

/-- C8: the reconciler processes commits oldest-first: on the newest-first
commit list `cs ++ [c]` (so `c` is the oldest commit) the run first folds
over all of `c`'s pairs and only then over the pairs of the newer commits,
and the dispatched list after the oldest commit is a prefix of the run's
final dispatched list. -/
theorem c8_commits_oldest_first (env : Env) (deps : List Deployment)
    (c : List (String × String)) (cs : List (List (String × String))) :
    runReconciler env deps (cs ++ [c]) =
      List.foldl (stepPair env deps)
        (List.foldl (stepPair env deps) initState c) cs.reverse.flatten ∧
    ∃ rest, (runReconciler env deps (cs ++ [c])).dispatched =
      (List.foldl (stepPair env deps) initState c).dispatched ++ rest := by
  have h1 : runReconciler env deps (cs ++ [c]) =
      List.foldl (stepPair env deps)
        (List.foldl (stepPair env deps) initState c) cs.reverse.flatten := by
    unfold runReconciler
    rw [List.reverse_append, List.reverse_singleton, List.singleton_append,
      List.flatten_cons, List.foldl_append]
  refine ⟨h1, ?_⟩
  rw [h1]
  exact foldl_dispatched_mono env deps cs.reverse.flatten _

/-- C10: when the diff output splits into an odd number of tokens (as a
rename entry with a similarity code does), the pairing comprehension
indexes past the end of the token list: `get_modified_files` yields no
mapping (the modelled `IndexError`). -/
theorem c10_odd_tokens_no_mapping (out : String)
    (h : (splitWhitespace out).length % 2 = 1) :
    get_modified_files out = none := by
  unfold get_modified_files
  exact pairTokens_odd (splitWhitespace out) h

/-- C10, witness: a rename entry `R100 old.py new.py` emits three tokens
and the extractor fails. -/
theorem c10_witness :
    (splitWhitespace "R100\told.py\tnew.py").length % 2 = 1 ∧
    get_modified_files "R100\told.py\tnew.py" = none :=
  ⟨by decide, c10_odd_tokens_no_mapping "R100\told.py\tnew.py" (by decide)⟩
